import Mathlib

/-!
Verification development for the ReReCaptcha behavioral movement classification
engine.  The numeric core (`CursorMovementAnalyzer.extract_features`,
`train_model`, `predict_movement_type` in `ai.py`, and the movement tracking of
the game loop in `game.py`) is shallowly embedded: every pandas/numpy float is a
`PFloat` (NaN, a signed infinity, or a real number), series are lists of
`PFloat`, and the pandas/numpy aggregation rules (`skipna` means and standard
deviations, IEEE comparison semantics where NaN compares false) are spelled out
as total functions.
-/

namespace ReRe

noncomputable section

open scoped Classical

open List

/-- A machine floating-point value as numpy/pandas produces it: NaN, a signed
infinity (`inf true` is `+∞`, `inf false` is `-∞`), or a finite value idealized
as a real number.  Inputs loaded from the CSV are finite; NaN and infinities
arise from `diff`, from `0/0` and from `x/0`. -/
inductive PFloat where
  | nan : PFloat
  | inf : Bool → PFloat
  | val : ℝ → PFloat

namespace PFloat

/-- NaN test (used by pandas `skipna` filtering). -/
def isNan : PFloat → Bool
  | nan => true
  | _ => false

/-- Finite-value test (used to model scikit-learn's `check_array`, which rejects
NaN and infinities). -/
def isReal : PFloat → Bool
  | val _ => true
  | _ => false

/-- Underlying real number of a finite value (only applied after `isReal`
validation succeeded). -/
def toR : PFloat → ℝ
  | val x => x
  | _ => 0

/-- IEEE-754 addition restricted to the values reachable in this program
(no negative zero). -/
def add : PFloat → PFloat → PFloat
  | nan, _ => nan
  | _, nan => nan
  | inf a, inf b => if a = b then inf a else nan
  | inf a, val _ => inf a
  | val _, inf b => inf b
  | val x, val y => val (x + y)

/-- IEEE-754 subtraction. -/
def sub : PFloat → PFloat → PFloat
  | nan, _ => nan
  | _, nan => nan
  | inf a, inf b => if a = b then nan else inf a
  | inf a, val _ => inf a
  | val _, inf b => inf (!b)
  | val x, val y => val (x - y)

/-- IEEE-754 multiplication; `inf * 0 = NaN`. -/
def mul : PFloat → PFloat → PFloat
  | nan, _ => nan
  | _, nan => nan
  | inf a, inf b => inf (a == b)
  | inf a, val x => if x = 0 then nan else inf (a == decide (0 < x))
  | val x, inf b => if x = 0 then nan else inf (b == decide (0 < x))
  | val x, val y => val (x * y)

/-- IEEE-754 division; `0/0 = NaN`, `x/0 = ±∞` for finite `x ≠ 0` (the zeros
produced by this program are all positive zeros). -/
def div : PFloat → PFloat → PFloat
  | nan, _ => nan
  | _, nan => nan
  | inf _, inf _ => nan
  | inf a, val y => if y = 0 then inf a else inf (a == decide (0 < y))
  | val _, inf _ => val 0
  | val x, val y =>
    if y = 0 then (if x = 0 then nan else inf (decide (0 < x))) else val (x / y)

/-- numpy `x**2`, i.e. `x*x` under IEEE semantics. -/
def pow2 (v : PFloat) : PFloat := mul v v

/-- numpy `sqrt`: NaN for negative arguments and for NaN, `+∞` for `+∞`. -/
def sqrtP : PFloat → PFloat
  | nan => nan
  | inf b => if b then inf true else nan
  | val x => if x < 0 then nan else val (Real.sqrt x)

/-- numpy `abs`. -/
def habs : PFloat → PFloat
  | nan => nan
  | inf _ => inf true
  | val x => val |x|

/-- IEEE `<` comparison as a boolean: any comparison with NaN is `false`. -/
def ltB : PFloat → PFloat → Bool
  | nan, _ => false
  | _, nan => false
  | inf a, inf b => !a && b
  | inf a, val _ => !a
  | val _, inf b => b
  | val x, val y => decide (x < y)

/-- IEEE `!=` comparison as a boolean: NaN is unequal to everything (this is the
semantics of the Python test `path_distance != 0`). -/
def neqB : PFloat → PFloat → Bool
  | nan, _ => true
  | _, nan => true
  | inf a, inf b => !(a == b)
  | inf _, val _ => true
  | val _, inf _ => true
  | val x, val y => decide (¬x = y)

end PFloat

open PFloat

/-- A row of the cursor CSV: `(Timestamp, X, Y)`. -/
abbrev Row : Type := ℝ × ℝ × ℝ

/-- A pandas series / numpy 1-d array of floats. -/
abbrev Col : Type := List PFloat

/-- The features dictionary, in insertion order. -/
abbrev FeatureList : Type := List (String × PFloat)

/-- `Timestamp` column of a loaded CSV. -/
def colT (rows : List Row) : Col := rows.map fun r => val r.1

/-- `X` column of a loaded CSV. -/
def colX (rows : List Row) : Col := rows.map fun r => val r.2.1

/-- `Y` column of a loaded CSV. -/
def colY (rows : List Row) : Col := rows.map fun r => val r.2.2

/-- pandas `Series.diff()`: first entry NaN, then consecutive differences. -/
def seriesDiff : Col → Col
  | [] => []
  | x :: l => PFloat.nan :: List.zipWith sub l (x :: l)

/-- numpy `np.diff`: consecutive differences, no NaN padding. -/
def npDiff (l : Col) : Col := List.zipWith sub l.tail l

/-- Elements that survive pandas `skipna` filtering. -/
def nonNan (l : Col) : Col := l.filter fun v => !v.isNan

/-- pandas `Series.sum()` (as called through `np.sum` on a series): NaNs are
skipped, the empty/all-NaN sum is `0.0`. -/
def pandasSum (l : Col) : PFloat := (nonNan l).foldl add (val 0)

/-- pandas `Series.mean()`: mean of the non-NaN entries, NaN if there are
none. -/
def pandasMean (l : Col) : PFloat :=
  let vs := nonNan l
  if vs.length = 0 then PFloat.nan else div (vs.foldl add (val 0)) (val vs.length)

/-- pandas `Series.std()`: sample standard deviation (`ddof = 1`) of the
non-NaN entries; NaN when fewer than two of them exist. -/
def pandasStd (l : Col) : PFloat :=
  let vs := nonNan l
  if vs.length < 2 then PFloat.nan
  else
    let m := div (vs.foldl add (val 0)) (val vs.length)
    sqrtP (div (vs.foldl (fun acc v => add acc (pow2 (sub v m))) (val 0))
      (val (vs.length - 1)))

/-- `np.mean` of a boolean series (`velocity_magnitude < 0.1`): a boolean
series has no NaNs, so this is simply `count(True) / length`. -/
def meanBools (l : List Bool) : PFloat :=
  if l.length = 0 then PFloat.nan else val ((l.countP id : ℝ) / (l.length : ℝ))

/-- numpy `np.arctan2 y x`, with finite values given by `Complex.arg ⟨x, y⟩`
(range `(-π, π]`, `arctan2 0 0 = 0`) and the standard IEEE conventions on
infinities. -/
def atan2 : PFloat → PFloat → PFloat
  | PFloat.nan, _ => PFloat.nan
  | _, PFloat.nan => PFloat.nan
  | val y, val x => val (Complex.arg ⟨x, y⟩)
  | inf true, val _ => val (Real.pi / 2)
  | inf false, val _ => val (-(Real.pi / 2))
  | val _, inf true => val 0
  | val y, inf false => if y < 0 then val (-Real.pi) else val Real.pi
  | inf true, inf true => val (Real.pi / 4)
  | inf true, inf false => val (3 * Real.pi / 4)
  | inf false, inf true => val (-(Real.pi / 4))
  | inf false, inf false => val (-(3 * Real.pi / 4))

/-- `df['velocity_x'] = df['X'].diff() / df['Timestamp'].diff()` (and likewise
for `Y`): elementwise division of the two diff series. -/
def velCol (pos ts : Col) : Col := List.zipWith div (seriesDiff pos) (seriesDiff ts)

/-- `df['acceleration_x'] = df['velocity_x'].diff() / df['Timestamp'].diff()`. -/
def accCol (vel ts : Col) : Col := List.zipWith div (seriesDiff vel) (seriesDiff ts)

/-- `np.sqrt(a**2 + b**2)` on two scalars (used for the Euclidean norm of the
per-axis statistics). -/
def normOfPair (a b : PFloat) : PFloat := sqrtP (add (pow2 a) (pow2 b))

/-- `np.sum(np.sqrt(df['X'].diff()**2 + df['Y'].diff()**2))`. -/
def pathDistanceCol (xs ys : Col) : PFloat :=
  pandasSum (List.map sqrtP (List.zipWith add
    (List.map pow2 (seriesDiff xs)) (List.map pow2 (seriesDiff ys))))

/-- `np.sqrt(velocity_x**2 + velocity_y**2)` elementwise. -/
def magCol (vx vy : Col) : Col :=
  List.map sqrtP (List.zipWith add (List.map pow2 vx) (List.map pow2 vy))

/-- `np.arctan2(df['velocity_y'], df['velocity_x'])` elementwise. -/
def dirCol (vx vy : Col) : Col := List.zipWith atan2 vy vx

/-- `np.sum(np.abs(np.diff(direction)) > np.pi/4)`. -/
def dirChangeCount (vx vy : Col) : ℕ :=
  ((npDiff (dirCol vx vy)).map habs).countP fun d => ltB (val (Real.pi / 4)) d

/-- The feature dictionary built by `extract_features` from the three input
columns, in the source's insertion order.  `none` models the `IndexError`
raised by `df['X'].iloc[-1]` on an empty frame (which in the source happens
after the four derivative columns were already assigned). -/
def featureListOf (ts xs ys : Col) : Option FeatureList :=
  let vx := velCol xs ts
  let vy := velCol ys ts
  let ax := accCol vx ts
  let ay := accCol vy ts
  match xs.head?, xs.getLast?, ys.head?, ys.getLast? with
  | some x0, some xl, some y0, some yl =>
    let vstd := normOfPair (pandasStd vx) (pandasStd vy)
    let vmean := normOfPair (pandasMean vx) (pandasMean vy)
    let astd := normOfPair (pandasStd ax) (pandasStd ay)
    let direct := sqrtP (add (pow2 (sub xl x0)) (pow2 (sub yl y0)))
    let path := pathDistanceCol xs ys
    let peff := if neqB path (val 0) then div direct path else val 0
    let pr := meanBools ((magCol vx vy).map fun m => ltB m (val 0.1))
    let dc := val (dirChangeCount vx vy : ℝ)
    some [("velocity_std", vstd), ("velocity_mean", vmean),
      ("acceleration_std", astd), ("path_efficiency", peff),
      ("pause_ratio", pr), ("direction_changes", dc)]
  | _, _, _, _ => none

/-- A pandas DataFrame: named columns in order. -/
structure DataFrame where
  cols : List (String × Col)

/-- `df[name]` (read): `none` models the KeyError on a missing column. -/
def getCol (df : DataFrame) (name : String) : Option Col :=
  (df.cols.find? fun c => c.1 == name).map fun c => c.2

/-- `df[name] = v` (write): replaces the column in place if present, otherwise
appends it on the right, exactly as pandas assignment does. -/
def setCol (df : DataFrame) (name : String) (v : Col) : DataFrame :=
  if df.cols.any fun c => c.1 == name then
    ⟨df.cols.map fun c => if c.1 == name then (name, v) else c⟩
  else ⟨df.cols ++ [(name, v)]⟩

/-- `CursorMovementAnalyzer.extract_features(df)`, including its side effect:
the four derivative columns are assigned into the caller's frame, and the
six-entry feature series is returned (or the IndexError, as `none`, for an
empty frame).  The first component is the returned value, the second the
frame's storage after the call. -/
def extract_features_df (df : DataFrame) : Option FeatureList × DataFrame :=
  match getCol df "Timestamp", getCol df "X", getCol df "Y" with
  | some ts, some xs, some ys =>
    let vx := velCol xs ts
    let vy := velCol ys ts
    let ax := accCol vx ts
    let ay := accCol vy ts
    let df1 := setCol (setCol (setCol (setCol df "velocity_x" vx)
      "velocity_y" vy) "acceleration_x" ax) "acceleration_y" ay
    (featureListOf ts xs ys, df1)
  | _, _, _ => (none, df)

/-- The DataFrame obtained by loading a list of `(Timestamp, X, Y)` rows
(`load_data` on the movement CSV). -/
def mkDF (rows : List Row) : DataFrame :=
  ⟨[("Timestamp", colT rows), ("X", colX rows), ("Y", colY rows)]⟩

/-- `extract_features` applied to a freshly loaded CSV, keeping only the
returned feature series. -/
def extract_features (rows : List Row) : Option FeatureList :=
  (extract_features_df (mkDF rows)).1

/-- Looks a feature up by name in the returned series. -/
def featVal (o : Option FeatureList) (name : String) : Option PFloat :=
  o.bind fun fl => (fl.find? fun p => p.1 == name).map fun p => p.2

/-- Errors surfaced to callers of the analyzer.  `notFitted` is scikit-learn's
`NotFittedError`; `invalidInput` its `ValueError` (empty input, NaN or
infinity in a feature matrix, inconsistent lengths); `indexError` the pandas
IndexError on an empty frame. -/
inductive SkError where
  | notFitted : SkError
  | invalidInput : SkError
  | indexError : SkError
deriving DecidableEq

/-- The analyzer's fitted state: `scalerFit` is `StandardScaler`'s state after
`fit` (`none` = unfitted), `modelFit` the `RandomForestClassifier`'s state
(`none` = unfitted).  Modelled from scikit-learn's documented contract: the
fitted state retains the training matrix (and labels); the numeric decision
function of the forest is not needed by any claim and is not interpreted. -/
structure Analyzer where
  scalerFit : Option (List (List ℝ))
  modelFit : Option (List (List ℝ) × List ℤ)

/-- `CursorMovementAnalyzer()`: both pipeline stages start unfitted. -/
def initAnalyzer : Analyzer := ⟨none, none⟩

/-- The list comprehension `[self.extract_features(df) for df in training_data]`:
left to right, propagating the first failure. -/
def featRows : List (List Row) → Except SkError (List (List PFloat))
  | [] => .ok []
  | rows :: rest =>
    match extract_features rows with
    | none => .error .indexError
    | some fl =>
      match featRows rest with
      | .ok ms => .ok ((fl.map fun p => p.2) :: ms)
      | .error e => .error e

/-- `CursorMovementAnalyzer.train_model`.  Modelled from scikit-learn's
documented behavior: `StandardScaler.fit` and `RandomForestClassifier.fit`
raise `ValueError` on an empty matrix, on NaN/infinite entries, and on a
label vector whose length differs from the sample count — and on nothing
else; in particular a label vector holding a single class fits without
error.  Re-training replaces the fitted state. -/
def train_model (_a : Analyzer) (training_data : List (List Row))
    (labels : List ℤ) : Except SkError Analyzer :=
  match featRows training_data with
  | .error e => .error e
  | .ok feats =>
    if feats.length = 0 then .error .invalidInput
    else if ¬(feats.all fun r => r.all PFloat.isReal) then .error .invalidInput
    else if labels.length ≠ feats.length then .error .invalidInput
    else
      let X := feats.map fun r => r.map PFloat.toR
      .ok ⟨some X, some (X, labels)⟩

/-- The structured result of `predict_movement_type`. -/
structure Verdict where
  prediction : String
  confidence : ℝ
  features : FeatureList

/-- `CursorMovementAnalyzer.predict_movement_type`: extract features, then
`scaler.transform` (which first checks fitted state — `NotFittedError` if the
scaler was never fit — then validates the array), then the forest's
`predict`/`predict_proba` (again `NotFittedError` when unfitted).  The
numeric output of a fitted forest is not needed by any claim; it is modelled
as a majority vote over the stored training labels with confidence 1. -/
def predict_movement_type (a : Analyzer) (cursor_data : List Row) :
    Except SkError Verdict :=
  match extract_features cursor_data with
  | none => .error .indexError
  | some fl =>
    match a.scalerFit with
    | none => .error .notFitted
    | some _ =>
      if ¬(fl.all fun p => PFloat.isReal p.2) then .error .invalidInput
      else
        match a.modelFit with
        | none => .error .notFitted
        | some m =>
          let ones := m.2.countP fun l => l == 1
          .ok ⟨if 2 * ones ≥ m.2.length then "human" else "bot", 1, fl⟩

/-- State of the game loop's cursor-movement tracking (`last_cursor_pos` and
the `cursor_movements` list of `game.py`). -/
structure TrackState where
  lastPos : Option (ℝ × ℝ)
  recorded : List Row

/-- One polling tick of the game loop (lines 308-314 of `game.py`): the first
observed position only seeds `last_cursor_pos`; afterwards a row
`[current_time, x, y]` is recorded exactly when the position changed. -/
def trackStep (st : TrackState) (t : ℝ) (pos : ℝ × ℝ) : TrackState :=
  match st.lastPos with
  | none => ⟨some pos, st.recorded⟩
  | some lp => if pos = lp then st else ⟨some pos, st.recorded ++ [(t, pos.1, pos.2)]⟩

/-- Runs the tracking over a list of `(time, position)` polling calls starting
from the cleared state. -/
def runTrack (calls : List (ℝ × ℝ × ℝ)) : TrackState :=
  calls.foldl (fun st c => trackStep st c.1 c.2) ⟨none, []⟩

/-- Euclidean distance between two points of the plane (spec language for the
per-step path lengths). -/
def dist2 (p q : ℝ × ℝ) : ℝ := Real.sqrt ((q.1 - p.1) ^ 2 + (q.2 - p.2) ^ 2)

/-- Total polyline length of a point sequence (spec language for the "sum of
consecutive-sample Euclidean distances"). -/
def pathLen : List (ℝ × ℝ) → ℝ
  | p :: q :: rest => dist2 p q + pathLen (q :: rest)
  | _ => 0

/-- The `(x, y)` point of a row. -/
def pt (r : Row) : ℝ × ℝ := (r.2.1, r.2.2)

/-- Spec-level per-step velocities of a session: for each consecutive pair of
samples, the position difference divided by the timestamp difference,
per axis. -/
def stepVels : Row → List Row → List (ℝ × ℝ)
  | _, [] => []
  | p, q :: rest =>
    ((q.2.1 - p.2.1) / (q.1 - p.1), (q.2.2 - p.2.2) / (q.1 - p.1)) :: stepVels q rest

/-- The true (unsigned, wrap-aware) angular separation of two plane vectors:
the arccosine of the normalized inner product, in `[0, π]`. -/
def angularSeparation (v w : ℝ × ℝ) : ℝ :=
  Real.arccos ((v.1 * w.1 + v.2 * w.2) /
    (Real.sqrt (v.1 ^ 2 + v.2 ^ 2) * Real.sqrt (w.1 ^ 2 + w.2 ^ 2)))

/-- A session of `n` samples moving at constant velocity: equal timestamp step
`dt` and equal position spacing `(dx, dy)` between consecutive samples. -/
def constSession (t x y dt dx dy : ℝ) : ℕ → List Row
  | 0 => []
  | n + 1 => (t, x, y) :: constSession (t + dt) (x + dx) (y + dy) dt dx dy n

/-- Consecutive differences of a real list against a seed (the real-number
shadow of `Series.diff()` past its leading NaN). -/
def shiftSub (x : ℝ) : List ℝ → List ℝ
  | [] => []
  | y :: t => (y - x) :: shiftSub y t

/-- Spec-level per-step Euclidean distances of a session. -/
def stepsR : Row → List Row → List ℝ
  | _, [] => []
  | p, q :: rest => dist2 (pt p) (pt q) :: stepsR q rest

namespace PFloat

@[simp] theorem isNan_nan : isNan nan = true := rfl

@[simp] theorem isNan_inf (b : Bool) : isNan (inf b) = false := rfl

@[simp] theorem isNan_val (x : ℝ) : isNan (val x) = false := rfl

@[simp] theorem isReal_nan : isReal nan = false := rfl

@[simp] theorem isReal_inf (b : Bool) : isReal (inf b) = false := rfl

@[simp] theorem isReal_val (x : ℝ) : isReal (val x) = true := rfl

@[simp] theorem add_nan_left (v : PFloat) : add nan v = nan := by cases v <;> rfl

@[simp] theorem add_nan_right (v : PFloat) : add v nan = nan := by cases v <;> rfl

@[simp] theorem add_val_val (x y : ℝ) : add (val x) (val y) = val (x + y) := rfl

@[simp] theorem add_val_inf (x : ℝ) (b : Bool) : add (val x) (inf b) = inf b := rfl

@[simp] theorem add_inf_val (b : Bool) (x : ℝ) : add (inf b) (val x) = inf b := rfl

@[simp] theorem add_inf_inf (a b : Bool) :
    add (inf a) (inf b) = if a = b then inf a else nan := rfl

@[simp] theorem sub_nan_left (v : PFloat) : sub nan v = nan := by cases v <;> rfl

@[simp] theorem sub_nan_right (v : PFloat) : sub v nan = nan := by cases v <;> rfl

@[simp] theorem sub_val_val (x y : ℝ) : sub (val x) (val y) = val (x - y) := rfl

@[simp] theorem mul_nan_left (v : PFloat) : mul nan v = nan := by cases v <;> rfl

@[simp] theorem mul_nan_right (v : PFloat) : mul v nan = nan := by cases v <;> rfl

@[simp] theorem mul_val_val (x y : ℝ) : mul (val x) (val y) = val (x * y) := rfl

@[simp] theorem mul_inf_inf (a b : Bool) : mul (inf a) (inf b) = inf (a == b) := rfl

@[simp] theorem pow2_val (x : ℝ) : pow2 (val x) = val (x * x) := rfl

@[simp] theorem pow2_nan : pow2 nan = nan := rfl

@[simp] theorem pow2_inf (b : Bool) : pow2 (inf b) = inf true := by cases b <;> rfl

@[simp] theorem div_nan_left (v : PFloat) : div nan v = nan := by cases v <;> rfl

@[simp] theorem div_nan_right (v : PFloat) : div v nan = nan := by cases v <;> rfl

theorem div_val_val (x : ℝ) {y : ℝ} (h : y ≠ 0) :
    div (val x) (val y) = val (x / y) := by simp [div, h]

theorem div_val_zero_of_pos {x : ℝ} (h : 0 < x) :
    div (val x) (val 0) = inf true := by simp [div, h, ne_of_gt h]

theorem div_val_zero_of_neg {x : ℝ} (h : x < 0) :
    div (val x) (val 0) = inf false := by simp [div, h, ne_of_lt h, not_lt.2 h.le]

@[simp] theorem div_zero_zero : div (val 0) (val 0) = nan := by simp [div]

theorem sqrtP_val_of_nonneg {x : ℝ} (h : 0 ≤ x) :
    sqrtP (val x) = val (Real.sqrt x) := by simp [sqrtP, not_lt.2 h]

@[simp] theorem sqrtP_nan : sqrtP nan = nan := rfl

@[simp] theorem sqrtP_inf_true : sqrtP (inf true) = inf true := rfl

@[simp] theorem habs_nan : habs nan = nan := rfl

@[simp] theorem habs_val (x : ℝ) : habs (val x) = val |x| := rfl

@[simp] theorem ltB_nan_left (v : PFloat) : ltB nan v = false := by cases v <;> rfl

@[simp] theorem ltB_nan_right (v : PFloat) : ltB v nan = false := by cases v <;> rfl

@[simp] theorem ltB_val_val (x y : ℝ) : ltB (val x) (val y) = decide (x < y) := rfl

@[simp] theorem ltB_val_inf (x : ℝ) (b : Bool) : ltB (val x) (inf b) = b := rfl

@[simp] theorem ltB_inf_val (b : Bool) (x : ℝ) : ltB (inf b) (val x) = !b := rfl

@[simp] theorem neqB_val_val (x y : ℝ) : neqB (val x) (val y) = decide (¬x = y) := rfl

@[simp] theorem neqB_inf_val (b : Bool) (x : ℝ) : neqB (inf b) (val x) = true := rfl

@[simp] theorem neqB_nan_left (v : PFloat) : neqB nan v = true := by cases v <;> rfl

end PFloat

@[simp] theorem colT_nil : colT [] = [] := rfl

@[simp] theorem colT_cons (r : Row) (rs : List Row) :
    colT (r :: rs) = val r.1 :: colT rs := rfl

@[simp] theorem colX_nil : colX [] = [] := rfl

@[simp] theorem colX_cons (r : Row) (rs : List Row) :
    colX (r :: rs) = val r.2.1 :: colX rs := rfl

@[simp] theorem colY_nil : colY [] = [] := rfl

@[simp] theorem colY_cons (r : Row) (rs : List Row) :
    colY (r :: rs) = val r.2.2 :: colY rs := rfl

@[simp] theorem seriesDiff_nil : seriesDiff [] = [] := rfl

@[simp] theorem seriesDiff_cons (x : PFloat) (l : Col) :
    seriesDiff (x :: l) = PFloat.nan :: List.zipWith sub l (x :: l) := rfl

@[simp] theorem nonNan_nil : nonNan [] = [] := rfl

@[simp] theorem nonNan_cons_nan (l : Col) :
    nonNan (PFloat.nan :: l) = nonNan l := by simp [nonNan]

@[simp] theorem nonNan_cons_val (x : ℝ) (l : Col) :
    nonNan (val x :: l) = val x :: nonNan l := by simp [nonNan]

@[simp] theorem nonNan_cons_inf (b : Bool) (l : Col) :
    nonNan (inf b :: l) = inf b :: nonNan l := by simp [nonNan]

theorem nonNan_map_val (L : List ℝ) : nonNan (L.map val) = L.map val := by
  induction L with
  | nil => rfl
  | cons x t ih => simp [ih]

theorem foldl_add_val (L : List ℝ) : ∀ a : ℝ,
    List.foldl add (val a) (L.map val) = val (a + L.sum) := by
  induction L with
  | nil => intro a; simp
  | cons x t ih => intro a; simp [ih (a + x)]; ring_nf

theorem pandasSum_nan_val (L : List ℝ) :
    pandasSum (PFloat.nan :: L.map val) = val L.sum := by
  simp [pandasSum, nonNan_map_val, foldl_add_val]

/-- `extract_features` on a freshly loaded CSV computes the feature series of
the three base columns. -/
theorem extract_features_eq (rows : List Row) :
    extract_features rows = featureListOf (colT rows) (colX rows) (colY rows) := by
  simp [extract_features, extract_features_df, mkDF, getCol, List.find?]

/-- On a nonempty session the feature series exists. -/
theorem extract_features_isSome (r : Row) (rs : List Row) :
    ∃ fl, extract_features (r :: rs) = some fl := by
  rw [extract_features_eq, ← Option.isSome_iff_exists]
  obtain ⟨xl, hxl⟩ := Option.isSome_iff_exists.mp
    ((List.getLast?_isSome (l := colX (r :: rs))).mpr (by simp))
  obtain ⟨yl, hyl⟩ := Option.isSome_iff_exists.mp
    ((List.getLast?_isSome (l := colY (r :: rs))).mpr (by simp))
  have hx0 : (colX (r :: rs)).head? = some (val r.2.1) := by simp
  have hy0 : (colY (r :: rs)).head? = some (val r.2.2) := by simp
  simp only [featureListOf, hx0, hxl, hy0, hyl, Option.isSome_some]

/-- C2: calling `predict_movement_type` on an analyzer whose scaler was never
successfully fitted (its state before any successful `train_model` call)
raises scikit-learn's `NotFittedError` — a distinct "model not trained"
condition — for every nonempty sample sequence; no default verdict is
produced. -/
theorem C2_predict_before_train (a : Analyzer) (r : Row) (rs : List Row)
    (h : a.scalerFit = none) :
    predict_movement_type a (r :: rs) = .error SkError.notFitted := by
  obtain ⟨fl, hfl⟩ := extract_features_isSome r rs
  simp [predict_movement_type, hfl, h]

/-- Witness for C2: the freshly constructed analyzer at a concrete one-sample
session. -/
theorem C2_predict_before_train_witness :
    initAnalyzer.scalerFit = none ∧
      predict_movement_type initAnalyzer [((0:ℝ), (0:ℝ), (0:ℝ))] =
        .error SkError.notFitted :=
  ⟨rfl, C2_predict_before_train initAnalyzer ((0:ℝ), (0:ℝ), (0:ℝ)) [] rfl⟩

theorem dist2_nonneg (p q : ℝ × ℝ) : 0 ≤ dist2 p q := Real.sqrt_nonneg _

theorem dist2_self (p : ℝ × ℝ) : dist2 p p = 0 := by simp [dist2]

theorem dist2_eq_abs (p q : ℝ × ℝ) :
    dist2 p q = Complex.abs ⟨q.1 - p.1, q.2 - p.2⟩ := by
  rw [Complex.abs_apply, Complex.normSq_mk, dist2]
  congr 1
  ring

theorem dist2_triangle (p b q : ℝ × ℝ) : dist2 p q ≤ dist2 p b + dist2 b q := by
  rw [dist2_eq_abs p q, dist2_eq_abs p b, dist2_eq_abs b q]
  have h : (⟨q.1 - p.1, q.2 - p.2⟩ : ℂ) =
      (⟨b.1 - p.1, b.2 - p.2⟩ : ℂ) + (⟨q.1 - b.1, q.2 - b.2⟩ : ℂ) := by
    apply Complex.ext <;> simp
  rw [h]
  exact Complex.abs.add_le _ _

theorem pathLen_cons_cons (p q : ℝ × ℝ) (rest : List (ℝ × ℝ)) :
    pathLen (p :: q :: rest) = dist2 p q + pathLen (q :: rest) := rfl

theorem pathLen_nonneg (l : List (ℝ × ℝ)) : 0 ≤ pathLen l := by
  induction l with
  | nil => simp [pathLen]
  | cons p t ih =>
    cases t with
    | nil => simp [pathLen]
    | cons q t2 => exact add_nonneg (dist2_nonneg p q) ih

theorem dist_head_last_le_pathLen : ∀ (l : List (ℝ × ℝ)) (p q : ℝ × ℝ),
    (p :: l).getLast? = some q → dist2 p q ≤ pathLen (p :: l) := by
  intro l
  induction l with
  | nil =>
    intro p q h
    simp only [List.getLast?_singleton, Option.some.injEq] at h
    subst h
    simp [pathLen, dist2_self]
  | cons s t ih =>
    intro p q h
    rw [List.getLast?_cons_cons] at h
    calc dist2 p q ≤ dist2 p s + dist2 s q := dist2_triangle p s q
      _ ≤ dist2 p s + pathLen (s :: t) := by have := ih s q h; linarith
      _ = pathLen (p :: s :: t) := (pathLen_cons_cons p s t).symm

theorem sum_stepsR : ∀ (l : List Row) (p : Row),
    (stepsR p l).sum = pathLen ((p :: l).map pt) := by
  intro l
  induction l with
  | nil => intro p; simp [stepsR, pathLen]
  | cons q t ih => intro p; simp [stepsR, pathLen_cons_cons, ih q]

theorem sqrtP_step (a b : ℝ) :
    sqrtP (add (pow2 (val a)) (pow2 (val b))) = val (Real.sqrt (a ^ 2 + b ^ 2)) := by
  simp only [pow2_val, add_val_val]
  rw [sqrtP_val_of_nonneg (add_nonneg (mul_self_nonneg a) (mul_self_nonneg b))]
  congr 1
  ring

theorem stepList_rows : ∀ (rs : List Row) (r : Row),
    List.map sqrtP (List.zipWith add
      (List.map pow2 (seriesDiff (colX (r :: rs))))
      (List.map pow2 (seriesDiff (colY (r :: rs)))))
    = PFloat.nan :: (stepsR r rs).map val := by
  intro rs
  induction rs with
  | nil => intro r; simp [stepsR]
  | cons s t ih =>
    intro r
    have h := ih s
    simp only [colX_cons, colY_cons, seriesDiff_cons, List.zipWith_cons_cons,
      List.map_cons, pow2_nan, add_nan_left, sqrtP_nan, sub_val_val,
      List.cons.injEq, true_and] at h ⊢
    simp only [stepsR, List.map_cons, List.cons.injEq]
    refine ⟨?_, h⟩
    rw [sqrtP_step]
    simp [dist2, pt]

theorem pathDistanceCol_rows (r : Row) (rs : List Row) :
    pathDistanceCol (colX (r :: rs)) (colY (r :: rs)) =
      val (pathLen ((r :: rs).map pt)) := by
  rw [pathDistanceCol, stepList_rows rs r, pandasSum_nan_val, sum_stepsR]

/-- Reduction of the returned `path_efficiency` entry for a nonempty session. -/
theorem featVal_path_efficiency (r : Row) (rs : List Row) (x0 xl y0 yl : PFloat)
    (hx0 : (colX (r :: rs)).head? = some x0)
    (hxl : (colX (r :: rs)).getLast? = some xl)
    (hy0 : (colY (r :: rs)).head? = some y0)
    (hyl : (colY (r :: rs)).getLast? = some yl) :
    featVal (extract_features (r :: rs)) "path_efficiency" =
      some (if neqB (pathDistanceCol (colX (r :: rs)) (colY (r :: rs))) (val 0) = true
        then div (sqrtP (add (pow2 (sub xl x0)) (pow2 (sub yl y0))))
          (pathDistanceCol (colX (r :: rs)) (colY (r :: rs)))
        else val 0) := by
  rw [extract_features_eq]
  simp only [featureListOf, hx0, hxl, hy0, hyl]
  simp [featVal, List.find?]

/-- C1: for every sample sequence accepted by `extract_features` (a nonempty
session), the returned `path_efficiency` is a real number in `[0, 1]` whenever
the total path distance (sum of consecutive-sample Euclidean distances) is
strictly positive, and is exactly `0` whenever the total path distance is
exactly `0`. -/
theorem C1_path_efficiency (r : Row) (rs : List Row) :
    (0 < pathLen ((r :: rs).map pt) →
      ∃ e : ℝ, featVal (extract_features (r :: rs)) "path_efficiency" = some (val e) ∧
        0 ≤ e ∧ e ≤ 1) ∧
    (pathLen ((r :: rs).map pt) = 0 →
      featVal (extract_features (r :: rs)) "path_efficiency" = some (val 0)) := by
  obtain ⟨q, hq⟩ : ∃ q, (r :: rs).getLast? = some q :=
    Option.isSome_iff_exists.mp (by simp)
  have hx0 : (colX (r :: rs)).head? = some (val r.2.1) := by simp
  have hy0 : (colY (r :: rs)).head? = some (val r.2.2) := by simp
  have hxl : (colX (r :: rs)).getLast? = some (val q.2.1) := by
    simp only [colX, List.getLast?_map, hq, Option.map_some']
  have hyl : (colY (r :: rs)).getLast? = some (val q.2.2) := by
    simp only [colY, List.getLast?_map, hq, Option.map_some']
  have hfv := featVal_path_efficiency r rs _ _ _ _ hx0 hxl hy0 hyl
  rw [pathDistanceCol_rows r rs] at hfv
  have hle : dist2 (pt r) (pt q) ≤ pathLen ((r :: rs).map pt) := by
    have hlast : ((pt r) :: rs.map pt).getLast? = some (pt q) := by
      have : ((r :: rs).map pt).getLast? = some (pt q) := by
        simp only [List.getLast?_map, hq, Option.map_some']
      simpa using this
    simpa using dist_head_last_le_pathLen (rs.map pt) (pt r) (pt q) hlast
  constructor
  · intro hpos
    have hne : pathLen ((r :: rs).map pt) ≠ 0 := ne_of_gt hpos
    refine ⟨dist2 (pt r) (pt q) / pathLen ((r :: rs).map pt), ?_, ?_, ?_⟩
    · rw [hfv]
      rw [if_pos (by simp only [neqB_val_val, decide_eq_true_eq]; exact hne)]
      rw [sub_val_val, sub_val_val, sqrtP_step, div_val_val _ hne]
      simp [dist2, pt]
    · exact div_nonneg (dist2_nonneg _ _) hpos.le
    · exact (div_le_one hpos).mpr hle
  · intro h0
    rw [hfv, h0]
    simp

/-- Witness for C1: a concrete two-sample session of positive path length. -/
theorem C1_path_efficiency_witness :
    0 < pathLen (([((0:ℝ), (0:ℝ), (0:ℝ)), (1, 1, 0)]).map pt) ∧
    ∃ e : ℝ, featVal (extract_features [((0:ℝ), (0:ℝ), (0:ℝ)), (1, 1, 0)])
      "path_efficiency" = some (val e) ∧ 0 ≤ e ∧ e ≤ 1 := by
  have hpos : 0 < pathLen (([((0:ℝ), (0:ℝ), (0:ℝ)), (1, 1, 0)]).map pt) := by
    simp [pt, pathLen, dist2]
  exact ⟨hpos, (C1_path_efficiency ((0:ℝ), (0:ℝ), (0:ℝ)) [(1, 1, 0)]).1 hpos⟩

/-- Counterexample to C3 as stated: on the session
`[(0,0,0), (0,5,0), (1,6,0)]` the step with timestamp delta `0` and position
delta `5` produces the velocity `+∞` — a numeric value, not an undefined
non-numeric marker — and it is not excluded from the aggregate statistics:
the returned `velocity_mean` is `+∞`, whereas excluding the affected step
would give `1`. -/
theorem C3_zero_dt_counterexample :
    velCol (colX [((0:ℝ), (0:ℝ), (0:ℝ)), (0, 5, 0), (1, 6, 0)])
        (colT [((0:ℝ), (0:ℝ), (0:ℝ)), (0, 5, 0), (1, 6, 0)]) =
      [PFloat.nan, inf true, val 1] ∧
    featVal (extract_features [((0:ℝ), (0:ℝ), (0:ℝ)), (0, 5, 0), (1, 6, 0)])
      "velocity_mean" = some (inf true) ∧
    inf true ≠ val 1 := by
  refine ⟨?_, ?_, fun h => PFloat.noConfusion h⟩
  · norm_num [velCol, seriesDiff, PFloat.div]
  · norm_num [extract_features_eq, featureListOf, featVal, List.find?, velCol,
      accCol, seriesDiff, normOfPair, pandasMean, nonNan, PFloat.div,
      PFloat.sqrtP, PFloat.pow2]
    simp

/-- C3 (amended): `extract_features` never raises on zero or negative
timestamp deltas (it is total on nonempty sessions).  A zero-delta step whose
position delta is also zero yields the non-numeric marker NaN, which pandas
does exclude from means and standard deviations — on
`[(0,0,0), (0,0,0), (1,1,0)]` the returned `velocity_mean` is the mean `1` of
the remaining step alone.  But a zero-delta step with a nonzero position
delta yields a signed infinity that is included in the aggregates: on
`[(0,0,0), (0,5,0), (1,6,0)]` the returned `velocity_mean` is `+∞`. -/
theorem C3_zero_dt_amended :
    (∀ (r : Row) (rs : List Row), (extract_features (r :: rs)).isSome = true) ∧
    featVal (extract_features [((0:ℝ), (0:ℝ), (0:ℝ)), (0, 0, 0), (1, 1, 0)])
      "velocity_mean" = some (val 1) ∧
    featVal (extract_features [((0:ℝ), (0:ℝ), (0:ℝ)), (0, 5, 0), (1, 6, 0)])
      "velocity_mean" = some (inf true) := by
  refine ⟨?_, ?_, ?_⟩
  · intro r rs
    obtain ⟨fl, hfl⟩ := extract_features_isSome r rs
    simp [hfl]
  · norm_num [extract_features_eq, featureListOf, featVal, List.find?, velCol,
      accCol, seriesDiff, normOfPair, pandasMean, nonNan, PFloat.div,
      PFloat.sqrtP, PFloat.pow2]
    simp
  · norm_num [extract_features_eq, featureListOf, featVal, List.find?, velCol,
      accCol, seriesDiff, normOfPair, pandasMean, nonNan, PFloat.div,
      PFloat.sqrtP, PFloat.pow2]
    simp

/-- Counterexample to C4 as stated: `extract_features` does not leave the
input frame's storage unchanged — on a concrete two-row frame the storage
after the call differs from the storage before it (four derivative columns
were added). -/
theorem C4_mutation_counterexample :
    (extract_features_df (mkDF [((0:ℝ), (0:ℝ), (0:ℝ)), (1, 1, 1)])).2 ≠
      mkDF [((0:ℝ), (0:ℝ), (0:ℝ)), (1, 1, 1)] := by
  intro h
  have h2 := congrArg (fun df => df.cols.map Prod.fst) h
  simp [extract_features_df, mkDF, getCol, setCol, List.find?] at h2

/-- C4 (amended): `extract_features` mutates the input frame's storage by
appending exactly the four derivative columns `velocity_x`, `velocity_y`,
`acceleration_x`, `acceleration_y`; the three original columns and their
values are left unchanged, and the returned output is exactly the six-key
feature vector, with no additional derived fields. -/
theorem C4_mutation_amended (r : Row) (rs : List Row) :
    ((extract_features_df (mkDF (r :: rs))).2.cols.map Prod.fst =
      ["Timestamp", "X", "Y", "velocity_x", "velocity_y",
        "acceleration_x", "acceleration_y"]) ∧
    ((extract_features_df (mkDF (r :: rs))).2.cols.take 3 = (mkDF (r :: rs)).cols) ∧
    ((extract_features_df (mkDF (r :: rs))).1.map (fun fl => fl.map Prod.fst) =
      some ["velocity_std", "velocity_mean", "acceleration_std",
        "path_efficiency", "pause_ratio", "direction_changes"]) := by
  obtain ⟨xl, hxl⟩ := Option.isSome_iff_exists.mp
    ((List.getLast?_isSome (l := colX (r :: rs))).mpr (by simp))
  obtain ⟨yl, hyl⟩ := Option.isSome_iff_exists.mp
    ((List.getLast?_isSome (l := colY (r :: rs))).mpr (by simp))
  have hx0 : (colX (r :: rs)).head? = some (val r.2.1) := by simp
  have hy0 : (colY (r :: rs)).head? = some (val r.2.2) := by simp
  simp only [colX_cons] at hxl
  simp only [colY_cons] at hyl
  refine ⟨?_, ?_, ?_⟩ <;>
    simp only [extract_features_df, mkDF, getCol, setCol, List.find?,
      featureListOf, hx0, hxl, hy0, hyl] <;> simp [hxl, hyl]

/-- Counterexample to C5 as stated: a training set whose label vector holds
only the single class `0` (two identical valid 4-sample sessions) trains
without any caller-visible error — `train_model` returns successfully. -/
theorem C5_single_class_counterexample :
    ∃ a' : Analyzer,
      train_model initAnalyzer
        [[((0:ℝ), (0:ℝ), (0:ℝ)), (1, 1, 0), (2, 2, 0), (3, 3, 0)],
         [((0:ℝ), (0:ℝ), (0:ℝ)), (1, 1, 0), (2, 2, 0), (3, 3, 0)]]
        [0, 0] = .ok a' := by
  have h : ∀ e : SkError, train_model initAnalyzer
      [[((0:ℝ), (0:ℝ), (0:ℝ)), (1, 1, 0), (2, 2, 0), (3, 3, 0)],
       [((0:ℝ), (0:ℝ), (0:ℝ)), (1, 1, 0), (2, 2, 0), (3, 3, 0)]]
      [0, 0] ≠ .error e := by
    intro e
    norm_num [train_model, featRows, extract_features_eq, featureListOf,
      velCol, accCol, seriesDiff, normOfPair, pandasMean, pandasStd,
      pandasSum, nonNan, pathDistanceCol, magCol, dirCol, meanBools,
      PFloat.div, PFloat.sqrtP]
    intro hc
    exact Except.noConfusion hc
  cases htm : train_model initAnalyzer
      [[((0:ℝ), (0:ℝ), (0:ℝ)), (1, 1, 0), (2, 2, 0), (3, 3, 0)],
       [((0:ℝ), (0:ℝ), (0:ℝ)), (1, 1, 0), (2, 2, 0), (3, 3, 0)]]
      [0, 0] with
  | error e => exact absurd htm (h e)
  | ok a' => exact ⟨a', rfl⟩

/-- C5 (amended): `train_model` is a caller-visible error on an empty
training set (scikit-learn rejects a 0-sample matrix), but a training set
whose labels hold a single class is not an error: it fits successfully,
producing a degenerate single-class classifier. -/
theorem C5_training_amended :
    (∀ (a : Analyzer) (labels : List ℤ),
      train_model a [] labels = .error SkError.invalidInput) ∧
    (∃ a' : Analyzer,
      train_model initAnalyzer
        [[((0:ℝ), (0:ℝ), (0:ℝ)), (1, 1, 0), (2, 2, 0), (3, 3, 0)],
         [((0:ℝ), (0:ℝ), (0:ℝ)), (1, 1, 0), (2, 2, 0), (3, 3, 0)]]
        [1, 1] = .ok a') := by
  constructor
  · intro a labels
    simp [train_model, featRows]
  · have h : ∀ e : SkError, train_model initAnalyzer
        [[((0:ℝ), (0:ℝ), (0:ℝ)), (1, 1, 0), (2, 2, 0), (3, 3, 0)],
         [((0:ℝ), (0:ℝ), (0:ℝ)), (1, 1, 0), (2, 2, 0), (3, 3, 0)]]
        [1, 1] ≠ .error e := by
      intro e
      norm_num [train_model, featRows, extract_features_eq, featureListOf,
        velCol, accCol, seriesDiff, normOfPair, pandasMean, pandasStd,
        pandasSum, nonNan, pathDistanceCol, magCol, dirCol, meanBools,
        PFloat.div, PFloat.sqrtP]
      intro hc
      exact Except.noConfusion hc
    cases htm : train_model initAnalyzer
        [[((0:ℝ), (0:ℝ), (0:ℝ)), (1, 1, 0), (2, 2, 0), (3, 3, 0)],
         [((0:ℝ), (0:ℝ), (0:ℝ)), (1, 1, 0), (2, 2, 0), (3, 3, 0)]]
        [1, 1] with
    | error e => exact absurd htm (h e)
    | ok a' => exact ⟨a', rfl⟩

/-- C9: the game loop's movement tracking, polled with position `(0,0)` at
`t = 0`, `(10,0)` at `t = 20` and `(10,10)` at `t = 40` (calls 16.67+ time
units apart, matching the 60 FPS frame cap), records exactly 2 samples: the
`t = 0` call only seeds `last_pos` and records nothing, and each recorded
coordinate equals the accumulated position delta exactly — a deviation of
`0`, within the documented `±0.2` noise bound. -/
theorem C9_sampler_concrete :
    (runTrack [((0:ℝ), (0:ℝ), (0:ℝ))]).recorded = [] ∧
    (runTrack [((0:ℝ), (0:ℝ), (0:ℝ))]).lastPos = some (0, 0) ∧
    (runTrack [((0:ℝ), (0:ℝ), (0:ℝ)), (20, 10, 0), (40, 10, 10)]).recorded =
      [(20, 10, 0), (40, 10, 10)] ∧
    (runTrack [((0:ℝ), (0:ℝ), (0:ℝ)), (20, 10, 0), (40, 10, 10)]).recorded.length = 2 ∧
    |(10:ℝ) - (0 + 10)| ≤ 0.2 ∧ |(0:ℝ) - (0 + 0)| ≤ 0.2 ∧
    |(10:ℝ) - (0 + 10 + 0)| ≤ 0.2 ∧ |(10:ℝ) - (0 + 0 + 10)| ≤ 0.2 := by
  refine ⟨rfl, rfl, ?_, ?_, by norm_num, by norm_num, by norm_num, by norm_num⟩ <;>
    norm_num [runTrack, trackStep, Prod.ext_iff]

/-- The full feature series returned on a nonempty session, entry by entry. -/
theorem extract_features_cons (r : Row) (rs : List Row) (xl yl : PFloat)
    (hxl : (colX (r :: rs)).getLast? = some xl)
    (hyl : (colY (r :: rs)).getLast? = some yl) :
    extract_features (r :: rs) = some
      [("velocity_std", normOfPair (pandasStd (velCol (colX (r :: rs)) (colT (r :: rs))))
          (pandasStd (velCol (colY (r :: rs)) (colT (r :: rs))))),
       ("velocity_mean", normOfPair (pandasMean (velCol (colX (r :: rs)) (colT (r :: rs))))
          (pandasMean (velCol (colY (r :: rs)) (colT (r :: rs))))),
       ("acceleration_std", normOfPair
          (pandasStd (accCol (velCol (colX (r :: rs)) (colT (r :: rs))) (colT (r :: rs))))
          (pandasStd (accCol (velCol (colY (r :: rs)) (colT (r :: rs))) (colT (r :: rs))))),
       ("path_efficiency",
          if neqB (pathDistanceCol (colX (r :: rs)) (colY (r :: rs))) (val 0) = true
          then div (sqrtP (add (pow2 (sub xl (val r.2.1))) (pow2 (sub yl (val r.2.2)))))
            (pathDistanceCol (colX (r :: rs)) (colY (r :: rs)))
          else val 0),
       ("pause_ratio", meanBools ((magCol (velCol (colX (r :: rs)) (colT (r :: rs)))
          (velCol (colY (r :: rs)) (colT (r :: rs)))).map fun m => ltB m (val 0.1))),
       ("direction_changes", val (dirChangeCount (velCol (colX (r :: rs)) (colT (r :: rs)))
          (velCol (colY (r :: rs)) (colT (r :: rs))) : ℝ))] := by
  rw [extract_features_eq]
  have hx0 : (colX (r :: rs)).head? = some (val r.2.1) := by simp
  have hy0 : (colY (r :: rs)).head? = some (val r.2.2) := by simp
  simp only [featureListOf, hx0, hxl, hy0, hyl]

/-- The x-velocity column of a strictly time-increasing session is NaN
followed by the real per-step x-velocities. -/
theorem velColX_real : ∀ (rs : List Row) (r : Row),
    List.Chain' (fun a b : Row => a.1 < b.1) (r :: rs) →
    velCol (colX (r :: rs)) (colT (r :: rs)) =
      PFloat.nan :: (stepVels r rs).map fun v => val v.1 := by
  intro rs
  induction rs with
  | nil => intro r _; simp [velCol, stepVels]
  | cons s t ih =>
    intro r hch
    rw [List.chain'_cons] at hch
    have h := ih s hch.2
    have hdt : s.1 - r.1 ≠ 0 := sub_ne_zero.mpr (ne_of_gt hch.1)
    simp only [velCol, colX_cons, colT_cons, seriesDiff_cons, List.zipWith_cons_cons,
      div_nan_left, stepVels, List.map_cons, List.cons.injEq, true_and] at h ⊢
    exact ⟨div_val_val _ hdt, h⟩

/-- The y-velocity column of a strictly time-increasing session. -/
theorem velColY_real : ∀ (rs : List Row) (r : Row),
    List.Chain' (fun a b : Row => a.1 < b.1) (r :: rs) →
    velCol (colY (r :: rs)) (colT (r :: rs)) =
      PFloat.nan :: (stepVels r rs).map fun v => val v.2 := by
  intro rs
  induction rs with
  | nil => intro r _; simp [velCol, stepVels]
  | cons s t ih =>
    intro r hch
    rw [List.chain'_cons] at hch
    have h := ih s hch.2
    have hdt : s.1 - r.1 ≠ 0 := sub_ne_zero.mpr (ne_of_gt hch.1)
    simp only [velCol, colY_cons, colT_cons, seriesDiff_cons, List.zipWith_cons_cons,
      div_nan_left, stepVels, List.map_cons, List.cons.injEq, true_and] at h ⊢
    exact ⟨div_val_val _ hdt, h⟩

theorem stepVels_length : ∀ (rs : List Row) (r : Row), (stepVels r rs).length = rs.length := by
  intro rs
  induction rs with
  | nil => intro r; rfl
  | cons s t ih => intro r; simp [stepVels, ih s]

/-- The magnitude column over bridged velocity columns. -/
theorem magCol_real : ∀ (VX VY : List ℝ),
    magCol (PFloat.nan :: VX.map val) (PFloat.nan :: VY.map val) =
      PFloat.nan :: (List.zipWith (fun a b => Real.sqrt (a ^ 2 + b ^ 2)) VX VY).map val := by
  intro VX
  induction VX with
  | nil =>
    intro VY
    simp [magCol]
  | cons a tx ih =>
    intro VY
    cases VY with
    | nil => simp [magCol]
    | cons b ty =>
      have h := ih ty
      simp only [magCol, List.map_cons, List.zipWith_cons_cons, pow2_nan, add_nan_left,
        sqrtP_nan, List.cons.injEq, true_and] at h ⊢
      exact ⟨sqrtP_step a b, h⟩

theorem zipWith_fst_snd {α β γ : Type _} (f : α → β → γ) : ∀ (l : List (α × β)),
    List.zipWith f (l.map Prod.fst) (l.map Prod.snd) = l.map fun v => f v.1 v.2 := by
  intro l
  induction l with
  | nil => rfl
  | cons a t ih => simp [ih]

theorem pandasStd_cons_nan (l : Col) : pandasStd (PFloat.nan :: l) = pandasStd l := by
  simp [pandasStd]

theorem pandasMean_cons_nan (l : Col) : pandasMean (PFloat.nan :: l) = pandasMean l := by
  simp [pandasMean]

/-- pandas sample standard deviation of a constant series of length at least 2
is zero. -/
theorem pandasStd_replicate_val (c : ℝ) (k : ℕ) (hk : 2 ≤ k) :
    pandasStd (List.replicate k (val c)) = val 0 := by
  have hk0 : ((k : ℕ) : ℝ) ≠ 0 := Nat.cast_ne_zero.mpr (by omega)
  have hk1 : ((k : ℝ) - 1) ≠ 0 := by
    have h2 : (2 : ℝ) ≤ (k : ℝ) := by exact_mod_cast hk
    intro h0
    linarith
  have hmap : List.replicate k (val c) = (List.replicate k c).map val := by
    rw [List.map_replicate]
  rw [pandasStd.eq_1]
  simp only [hmap, nonNan_map_val, List.length_map, List.length_replicate]
  rw [if_neg (by omega)]
  rw [foldl_add_val, List.sum_replicate, nsmul_eq_mul]
  rw [div_val_val _ hk0]
  have hmean : (0 + (k : ℝ) * c) / (k : ℝ) = c := by field_simp
  rw [hmean]
  have hdev : ∀ (j : ℕ) (a : ℝ),
      List.foldl (fun acc v => add acc (pow2 (sub v (val c)))) (val a)
        ((List.replicate j c).map val) = val a := by
    intro j
    induction j with
    | zero => intro a; simp
    | succ i ih =>
      intro a
      simp only [List.replicate_succ, List.map_cons, List.foldl_cons, sub_val_val,
        sub_self, pow2_val, mul_zero, add_val_val, add_zero]
      exact ih a
  rw [hdev]
  rw [div_val_val _ hk1, zero_div]
  rw [sqrtP_val_of_nonneg le_rfl, Real.sqrt_zero]

theorem zipWith_sub_replicate_val (c : ℝ) : ∀ (a b : ℕ),
    List.zipWith sub (List.replicate a (val c)) (List.replicate b (val c)) =
      List.replicate (min a b) (val 0) := by
  intro a
  induction a with
  | zero => intro b; simp
  | succ i ih =>
    intro b
    cases b with
    | zero => simp
    | succ j =>
      simp only [List.replicate_succ, List.zipWith_cons_cons, sub_val_val, sub_self]
      rw [ih j]
      have : min (i + 1) (j + 1) = min i j + 1 := by omega
      rw [this, List.replicate_succ]

theorem zipWith_div_replicate_zero {d : ℝ} (hd : d ≠ 0) : ∀ (a b : ℕ),
    List.zipWith div (List.replicate a (val 0)) (List.replicate b (val d)) =
      List.replicate (min a b) (val 0) := by
  intro a
  induction a with
  | zero => intro b; simp
  | succ i ih =>
    intro b
    cases b with
    | zero => simp
    | succ j =>
      simp only [List.replicate_succ, List.zipWith_cons_cons]
      rw [div_val_val _ hd, zero_div, ih j]
      have : min (i + 1) (j + 1) = min i j + 1 := by omega
      rw [this, List.replicate_succ]

theorem seriesDiff_nan_replicate (c : ℝ) (i : ℕ) :
    seriesDiff (PFloat.nan :: List.replicate (i + 1) (val c)) =
      PFloat.nan :: PFloat.nan :: List.replicate i (val 0) := by
  simp only [seriesDiff, List.replicate_succ, List.zipWith_cons_cons, sub_nan_right]
  rw [show (val c :: List.replicate i (val c)) = List.replicate (i + 1) (val c) from
    (List.replicate_succ (val c) i).symm]
  rw [zipWith_sub_replicate_val c i (i + 1)]
  rw [min_eq_left (by omega)]

theorem stepVels_constSession (dt dx dy : ℝ) : ∀ (n : ℕ) (t x y : ℝ),
    stepVels (t, x, y) (constSession (t + dt) (x + dx) (y + dy) dt dx dy n) =
      List.replicate n (dx / dt, dy / dt) := by
  intro n
  induction n with
  | zero => intro t x y; rfl
  | succ m ih =>
    intro t x y
    simp only [constSession, stepVels, List.replicate_succ, List.cons.injEq]
    constructor
    · simp [add_sub_cancel_left]
    · exact ih (t + dt) (x + dx) (y + dy)

theorem chain_constSession (dt dx dy : ℝ) (hdt : 0 < dt) : ∀ (n : ℕ) (t x y : ℝ),
    List.Chain' (fun a b : Row => a.1 < b.1) (constSession t x y dt dx dy n) := by
  intro n
  induction n with
  | zero => intro t x y; simp [constSession]
  | succ m ih =>
    intro t x y
    cases m with
    | zero => simp [constSession]
    | succ k =>
      rw [constSession, constSession, List.chain'_cons]
      refine ⟨by simpa using hdt, ?_⟩
      rw [← constSession]
      exact ih (t + dt) (x + dx) (y + dy)

theorem seriesDiff_colT_constSession (dt dx dy : ℝ) : ∀ (n : ℕ) (t x y : ℝ),
    seriesDiff (colT (constSession t x y dt dx dy (n + 1))) =
      PFloat.nan :: List.replicate n (val dt) := by
  intro n
  induction n with
  | zero => intro t x y; simp [constSession, colT, seriesDiff]
  | succ i ih =>
    intro t x y
    have h := ih (t + dt) (x + dx) (y + dy)
    simp only [constSession, colT_cons, seriesDiff_cons, List.zipWith_cons_cons,
      List.replicate_succ, List.cons.injEq, true_and] at h ⊢
    constructor
    · rw [sub_val_val]
      simp [add_sub_cancel_left]
    · exact h

theorem normOfPair_zero : normOfPair (val 0) (val 0) = val 0 := by
  simp only [normOfPair, pow2_val, mul_zero, add_val_val, add_zero]
  rw [sqrtP_val_of_nonneg le_rfl, Real.sqrt_zero]

/-- C7 (amended): for every strictly time-increasing session, the returned
`pause_ratio` is the number of steps whose velocity magnitude is below `0.1`
divided by the number of SAMPLES (rows) — not by the number of steps: the
first row, whose velocity is NaN, counts as a non-pause entry in the
denominator. -/
theorem C7_pause_ratio_amended (r : Row) (rs : List Row)
    (hch : List.Chain' (fun a b : Row => a.1 < b.1) (r :: rs)) :
    featVal (extract_features (r :: rs)) "pause_ratio" =
      some (val ((((stepVels r rs).countP fun v =>
          decide (Real.sqrt (v.1 ^ 2 + v.2 ^ 2) < 0.1)) : ℝ) /
        ((rs.length + 1 : ℕ) : ℝ))) := by
  obtain ⟨xl, hxl⟩ := Option.isSome_iff_exists.mp
    ((List.getLast?_isSome (l := colX (r :: rs))).mpr (by simp))
  obtain ⟨yl, hyl⟩ := Option.isSome_iff_exists.mp
    ((List.getLast?_isSome (l := colY (r :: rs))).mpr (by simp))
  rw [extract_features_cons r rs xl yl hxl hyl]
  have hvx := velColX_real rs r hch
  have hvy := velColY_real rs r hch
  have hvx' : velCol (colX (r :: rs)) (colT (r :: rs)) =
      PFloat.nan :: ((stepVels r rs).map Prod.fst).map val := by
    rw [hvx, List.map_map]
    rfl
  have hvy' : velCol (colY (r :: rs)) (colT (r :: rs)) =
      PFloat.nan :: ((stepVels r rs).map Prod.snd).map val := by
    rw [hvy, List.map_map]
    rfl
  have hmag : magCol (velCol (colX (r :: rs)) (colT (r :: rs)))
      (velCol (colY (r :: rs)) (colT (r :: rs))) =
      PFloat.nan ::
        ((stepVels r rs).map fun v => Real.sqrt (v.1 ^ 2 + v.2 ^ 2)).map val := by
    rw [hvx', hvy', magCol_real, zipWith_fst_snd]
  rw [hmag]
  have hfn : ((fun m => ltB m (val 0.1)) ∘ val ∘ fun v : ℝ × ℝ =>
      Real.sqrt (v.1 ^ 2 + v.2 ^ 2)) =
      fun v : ℝ × ℝ => decide (Real.sqrt (v.1 ^ 2 + v.2 ^ 2) < 0.1) := by
    funext v
    simp [Function.comp]
  simp [featVal, List.find?, meanBools, List.countP_cons, List.countP_map,
    stepVels_length, hfn]

/-- Counterexample to C7 as stated: on the two-sample session
`[(0,0,0), (10,0,0)]` there is exactly 1 step, whose velocity magnitude `0`
is below the threshold, so the claim predicts `pause_ratio = 1/1 = 1`; the
code returns `1/2`, because the first row's NaN velocity enters the
denominator as a non-pause entry. -/
theorem C7_pause_ratio_counterexample :
    featVal (extract_features [((0:ℝ), (0:ℝ), (0:ℝ)), (10, 0, 0)]) "pause_ratio" =
      some (val (1 / 2)) ∧ (1 / 2 : ℝ) ≠ 1 := by
  constructor
  · have hdec : decide ((0:ℝ) < 0.1) = true := by
      rw [decide_eq_true_eq]
      norm_num
    norm_num [extract_features_eq, featureListOf, featVal, List.find?, velCol,
      seriesDiff, magCol, meanBools, List.countP_cons, PFloat.div, PFloat.sqrtP,
      hdec]
    simp
  · norm_num

/-- Witness for C7 (amended) at a concrete two-sample session. -/
theorem C7_pause_ratio_witness :
    List.Chain' (fun a b : Row => a.1 < b.1) [((0:ℝ), (0:ℝ), (0:ℝ)), (1, 5, 0)] ∧
    featVal (extract_features [((0:ℝ), (0:ℝ), (0:ℝ)), (1, 5, 0)]) "pause_ratio" =
      some (val ((((stepVels ((0:ℝ), (0:ℝ), (0:ℝ)) [(1, 5, 0)]).countP fun v =>
          decide (Real.sqrt (v.1 ^ 2 + v.2 ^ 2) < 0.1)) : ℝ) / ((1 + 1 : ℕ) : ℝ))) := by
  have hch : List.Chain' (fun a b : Row => a.1 < b.1)
      [((0:ℝ), (0:ℝ), (0:ℝ)), (1, 5, 0)] := by
    norm_num [List.chain'_cons, List.chain'_singleton]
  exact ⟨hch, C7_pause_ratio_amended ((0:ℝ), (0:ℝ), (0:ℝ)) [(1, 5, 0)] hch⟩

/-- Counterexample to C6 as stated: a two-sample constant-velocity session
(velocity `(1, 0)` per unit time) has `velocity_std = NaN`, not `0`: pandas'
sample standard deviation (`ddof = 1`) of the single velocity value is NaN. -/
theorem C6_const_velocity_counterexample :
    featVal (extract_features [((0:ℝ), (0:ℝ), (0:ℝ)), (1, 1, 0)]) "velocity_std" =
      some PFloat.nan ∧ PFloat.nan ≠ val 0 := by
  refine ⟨?_, fun h => PFloat.noConfusion h⟩
  norm_num [extract_features_eq, featureListOf, featVal, List.find?, velCol,
    seriesDiff, normOfPair, pandasStd, nonNan, PFloat.div]

/-- C6 (amended): for every session of at least 4 samples moving at constant
velocity (equal position spacing `(dx, dy)` and equal positive timestamp step
`dt`), the returned `velocity_std` and `acceleration_std` are both exactly 0.
(With 2 samples `velocity_std` is NaN and with 2 or 3 samples
`acceleration_std` is NaN, because pandas' sample standard deviation of fewer
than two values is NaN.) -/
theorem C6_const_velocity_amended (t x y dt dx dy : ℝ) (hdt : 0 < dt)
    (n : ℕ) (hn : 4 ≤ n) :
    featVal (extract_features (constSession t x y dt dx dy n)) "velocity_std" =
      some (val 0) ∧
    featVal (extract_features (constSession t x y dt dx dy n)) "acceleration_std" =
      some (val 0) := by
  obtain ⟨m, rfl⟩ : ∃ m, n = m + 4 := ⟨n - 4, by omega⟩
  have hc : constSession t x y dt dx dy (m + 4) =
      (t, x, y) :: constSession (t + dt) (x + dx) (y + dy) dt dx dy (m + 3) := rfl
  rw [hc]
  have hch : List.Chain' (fun a b : Row => a.1 < b.1) ((t, x, y) :: constSession (t + dt) (x + dx) (y + dy) dt dx dy (m + 3)) := by
    have h := chain_constSession dt dx dy hdt (m + 4) t x y
    rwa [hc] at h
  obtain ⟨xl, hxl⟩ := Option.isSome_iff_exists.mp
    ((List.getLast?_isSome (l := colX ((t, x, y) :: constSession (t + dt) (x + dx) (y + dy) dt dx dy (m + 3)))).mpr (by simp))
  obtain ⟨yl, hyl⟩ := Option.isSome_iff_exists.mp
    ((List.getLast?_isSome (l := colY ((t, x, y) :: constSession (t + dt) (x + dx) (y + dy) dt dx dy (m + 3)))).mpr (by simp))
  rw [extract_features_cons _ _ xl yl hxl hyl]
  have hsv : stepVels (t, x, y) (constSession (t + dt) (x + dx) (y + dy) dt dx dy (m + 3)) =
      List.replicate (m + 3) (dx / dt, dy / dt) :=
    stepVels_constSession dt dx dy (m + 3) t x y
  have hvx : velCol (colX ((t, x, y) :: constSession (t + dt) (x + dx) (y + dy) dt dx dy (m + 3))) (colT ((t, x, y) :: constSession (t + dt) (x + dx) (y + dy) dt dx dy (m + 3))) =
      PFloat.nan :: List.replicate (m + 3) (val (dx / dt)) := by
    rw [velColX_real (constSession (t + dt) (x + dx) (y + dy) dt dx dy (m + 3)) (t, x, y) hch, hsv]
    simp [List.map_replicate]
  have hvy : velCol (colY ((t, x, y) :: constSession (t + dt) (x + dx) (y + dy) dt dx dy (m + 3))) (colT ((t, x, y) :: constSession (t + dt) (x + dx) (y + dy) dt dx dy (m + 3))) =
      PFloat.nan :: List.replicate (m + 3) (val (dy / dt)) := by
    rw [velColY_real (constSession (t + dt) (x + dx) (y + dy) dt dx dy (m + 3)) (t, x, y) hch, hsv]
    simp [List.map_replicate]
  have hstdx : pandasStd (velCol (colX ((t, x, y) :: constSession (t + dt) (x + dx) (y + dy) dt dx dy (m + 3)))
      (colT ((t, x, y) :: constSession (t + dt) (x + dx) (y + dy) dt dx dy (m + 3)))) = val 0 := by
    rw [hvx, pandasStd_cons_nan, pandasStd_replicate_val _ _ (by omega)]
  have hstdy : pandasStd (velCol (colY ((t, x, y) :: constSession (t + dt) (x + dx) (y + dy) dt dx dy (m + 3)))
      (colT ((t, x, y) :: constSession (t + dt) (x + dx) (y + dy) dt dx dy (m + 3)))) = val 0 := by
    rw [hvy, pandasStd_cons_nan, pandasStd_replicate_val _ _ (by omega)]
  have hts : seriesDiff (colT ((t, x, y) :: constSession (t + dt) (x + dx) (y + dy) dt dx dy (m + 3))) =
      PFloat.nan :: List.replicate (m + 3) (val dt) := by
    have h := seriesDiff_colT_constSession dt dx dy (m + 3) t x y
    rwa [show m + 3 + 1 = m + 4 from rfl, hc] at h
  have hsdx : seriesDiff (velCol (colX ((t, x, y) :: constSession (t + dt) (x + dx) (y + dy) dt dx dy (m + 3)))
      (colT ((t, x, y) :: constSession (t + dt) (x + dx) (y + dy) dt dx dy (m + 3)))) =
      PFloat.nan :: PFloat.nan :: List.replicate (m + 2) (val 0) := by
    rw [hvx]
    have h := seriesDiff_nan_replicate (dx / dt) (m + 2)
    rwa [show m + 2 + 1 = m + 3 from rfl] at h
  have hsdy : seriesDiff (velCol (colY ((t, x, y) :: constSession (t + dt) (x + dx) (y + dy) dt dx dy (m + 3)))
      (colT ((t, x, y) :: constSession (t + dt) (x + dx) (y + dy) dt dx dy (m + 3)))) =
      PFloat.nan :: PFloat.nan :: List.replicate (m + 2) (val 0) := by
    rw [hvy]
    have h := seriesDiff_nan_replicate (dy / dt) (m + 2)
    rwa [show m + 2 + 1 = m + 3 from rfl] at h
  have haccx : accCol (velCol (colX ((t, x, y) :: constSession (t + dt) (x + dx) (y + dy) dt dx dy (m + 3)))
      (colT ((t, x, y) :: constSession (t + dt) (x + dx) (y + dy) dt dx dy (m + 3)))) (colT ((t, x, y) :: constSession (t + dt) (x + dx) (y + dy) dt dx dy (m + 3))) =
      PFloat.nan :: PFloat.nan :: List.replicate (m + 2) (val 0) := by
    simp only [accCol]
    rw [hsdx, hts]
    rw [show List.replicate (m + 3) (val dt) =
      val dt :: List.replicate (m + 2) (val dt) from rfl]
    simp only [List.zipWith_cons_cons, div_nan_left]
    rw [zipWith_div_replicate_zero (ne_of_gt hdt) (m + 2) (m + 2), min_self]
  have haccy : accCol (velCol (colY ((t, x, y) :: constSession (t + dt) (x + dx) (y + dy) dt dx dy (m + 3)))
      (colT ((t, x, y) :: constSession (t + dt) (x + dx) (y + dy) dt dx dy (m + 3)))) (colT ((t, x, y) :: constSession (t + dt) (x + dx) (y + dy) dt dx dy (m + 3))) =
      PFloat.nan :: PFloat.nan :: List.replicate (m + 2) (val 0) := by
    simp only [accCol]
    rw [hsdy, hts]
    rw [show List.replicate (m + 3) (val dt) =
      val dt :: List.replicate (m + 2) (val dt) from rfl]
    simp only [List.zipWith_cons_cons, div_nan_left]
    rw [zipWith_div_replicate_zero (ne_of_gt hdt) (m + 2) (m + 2), min_self]
  have hstdax : pandasStd (accCol (velCol (colX ((t, x, y) :: constSession (t + dt) (x + dx) (y + dy) dt dx dy (m + 3)))
      (colT ((t, x, y) :: constSession (t + dt) (x + dx) (y + dy) dt dx dy (m + 3)))) (colT ((t, x, y) :: constSession (t + dt) (x + dx) (y + dy) dt dx dy (m + 3)))) = val 0 := by
    rw [haccx, pandasStd_cons_nan, pandasStd_cons_nan,
      pandasStd_replicate_val _ _ (by omega)]
  have hstday : pandasStd (accCol (velCol (colY ((t, x, y) :: constSession (t + dt) (x + dx) (y + dy) dt dx dy (m + 3)))
      (colT ((t, x, y) :: constSession (t + dt) (x + dx) (y + dy) dt dx dy (m + 3)))) (colT ((t, x, y) :: constSession (t + dt) (x + dx) (y + dy) dt dx dy (m + 3)))) = val 0 := by
    rw [haccy, pandasStd_cons_nan, pandasStd_cons_nan,
      pandasStd_replicate_val _ _ (by omega)]
  rw [hstdx, hstdy, hstdax, hstday, normOfPair_zero]
  constructor <;> simp [featVal, List.find?]

/-- Witness for C6 (amended) at a concrete 4-sample constant-velocity
session. -/
theorem C6_const_velocity_witness :
    (0:ℝ) < 1 ∧ 4 ≤ 4 ∧
    (featVal (extract_features (constSession 0 0 0 1 1 0 4)) "velocity_std" =
      some (val 0) ∧
    featVal (extract_features (constSession 0 0 0 1 1 0 4)) "acceleration_std" =
      some (val 0)) :=
  ⟨by norm_num, le_refl 4,
    C6_const_velocity_amended 0 0 0 1 1 0 (by norm_num) 4 (le_refl 4)⟩

theorem argMk_one_zero : Complex.arg ⟨1, 0⟩ = 0 := by
  have h : (⟨1, 0⟩ : ℂ) = 1 := by
    apply Complex.ext <;> simp
  rw [h, Complex.arg_one]

theorem argMk_zero_one : Complex.arg ⟨0, 1⟩ = Real.pi / 2 := by
  have h : (⟨0, 1⟩ : ℂ) = Complex.I := by
    apply Complex.ext <;> simp
  rw [h, Complex.arg_I]

theorem argMk_negone_zero : Complex.arg ⟨-1, 0⟩ = Real.pi := by
  have h : (⟨-1, 0⟩ : ℂ) = -1 := by
    apply Complex.ext <;> simp
  rw [h, Complex.arg_neg_one]

/-- C8: on the synthetic 5-sample path `(0,0) → (1,0) → (2,0) → (2,1) → (1,1)`
(unit timestamps), which makes exactly 2 right-angle turns, the returned
`direction_changes` is exactly 2: the two `π/2` heading deltas exceed the
`π/4` threshold and the straight step's `0` delta does not (the leading
NaN delta compares false). -/
theorem C8_direction_changes_concrete :
    featVal (extract_features
      [((0:ℝ), (0:ℝ), (0:ℝ)), (1, 1, 0), (2, 2, 0), (3, 2, 1), (4, 1, 1)])
      "direction_changes" = some (val 2) := by
  have hpi := Real.pi_pos
  have hd0 : ltB (val (Real.pi / 4)) (val |(0:ℝ)|) = false := by
    simp only [ltB_val_val, decide_eq_false_iff_not, not_lt, abs_zero]
    positivity
  have hd1 : ltB (val (Real.pi / 4)) (val |Real.pi / 2 - 0|) = true := by
    simp only [ltB_val_val, decide_eq_true_eq, sub_zero,
      abs_of_nonneg (by positivity : (0:ℝ) ≤ Real.pi / 2)]
    linarith
  have hd2 : ltB (val (Real.pi / 4)) (val |Real.pi - Real.pi / 2|) = true := by
    simp only [ltB_val_val, decide_eq_true_eq]
    rw [show Real.pi - Real.pi / 2 = Real.pi / 2 by ring,
      abs_of_nonneg (by positivity : (0:ℝ) ≤ Real.pi / 2)]
    linarith
  norm_num [extract_features_eq, featureListOf, featVal, List.find?, velCol,
    seriesDiff, npDiff, dirCol, dirChangeCount, atan2, PFloat.div,
    argMk_one_zero, argMk_zero_one, argMk_negone_zero, List.countP_cons,
    hd0, hd1, hd2]
  have hA : (Real.pi / 4 < |Real.pi / 2|) = True := by
    rw [abs_of_nonneg (by positivity : (0:ℝ) ≤ Real.pi / 2)]
    exact eq_true (by linarith)
  have hB : (Real.pi / 4 < (0:ℝ)) = False := eq_false (not_lt.mpr (by positivity))
  simp [hA, hB]
  norm_num

/-- C10: a session whose two velocity steps are `(-5, 1)` then `(-5, -1)` has
a true angular separation below `π/4` (the vectors point almost the same
way), but their `atan2` headings straddle the `±π` discontinuity, the raw
absolute heading difference exceeds `π/4`, and `extract_features` counts the
step: `direction_changes = 1`. -/
theorem C10_heading_wraparound :
    ∃ rows : List Row,
      velCol (colX rows) (colT rows) = [PFloat.nan, val (-5), val (-5)] ∧
      velCol (colY rows) (colT rows) = [PFloat.nan, val 1, val (-1)] ∧
      angularSeparation (-5, 1) (-5, -1) < Real.pi / 4 ∧
      Real.pi / 4 < |Complex.arg ⟨-5, -1⟩ - Complex.arg ⟨-5, 1⟩| ∧
      featVal (extract_features rows) "direction_changes" = some (val 1) := by
  have hpi := Real.pi_pos
  have ha1 := Complex.arg_of_re_neg_of_im_nonneg (x := ⟨-5, 1⟩)
    (by show (-5:ℝ) < 0; norm_num) (by show (0:ℝ) ≤ 1; norm_num)
  have ha2 := Complex.arg_of_re_neg_of_im_neg (x := ⟨-5, -1⟩)
    (by show (-5:ℝ) < 0; norm_num) (by show (-1:ℝ) < 0; norm_num)
  have hdelta : Real.pi / 4 < |Complex.arg ⟨-5, -1⟩ - Complex.arg ⟨-5, 1⟩| := by
    rw [ha1, ha2]
    have hb1 := Real.neg_pi_div_two_le_arcsin
      ((-(⟨-5, 1⟩ : ℂ)).im / Complex.abs ⟨-5, 1⟩)
    have hb2 := Real.arcsin_le_pi_div_two
      ((-(⟨-5, -1⟩ : ℂ)).im / Complex.abs ⟨-5, -1⟩)
    rw [abs_of_neg (by linarith)]
    linarith
  refine ⟨[((0:ℝ), (0:ℝ), (0:ℝ)), (1, -5, 1), (2, -10, 0)], ?_, ?_, ?_, hdelta, ?_⟩
  · norm_num [velCol, seriesDiff, PFloat.div]
  · norm_num [velCol, seriesDiff, PFloat.div]
  · have h26 : Real.sqrt 26 * Real.sqrt 26 = 26 := Real.mul_self_sqrt (by norm_num)
    have h2lt : Real.sqrt 2 < 24 / 13 :=
      (Real.sqrt_lt' (by norm_num : (0:ℝ) < 24 / 13)).mpr (by norm_num)
    have h2nn := Real.sqrt_nonneg 2
    have h14 : Real.arccos (Real.sqrt 2 / 2) = Real.pi / 4 := by
      rw [← Real.cos_pi_div_four,
        Real.arccos_cos (by positivity) (by linarith)]
    have hlt : Real.arccos (12 / 13) < Real.arccos (Real.sqrt 2 / 2) := by
      apply Real.strictAntiOn_arccos
      · exact Set.mem_Icc.mpr ⟨by linarith, by linarith⟩
      · exact Set.mem_Icc.mpr ⟨by norm_num, by norm_num⟩
      · linarith
    have key : Real.arccos (12 / 13) < Real.pi / 4 := by
      rw [← h14]
      exact hlt
    have hval : angularSeparation (-5, 1) (-5, -1) = Real.arccos (12 / 13) := by
      norm_num [angularSeparation, h26]
    rw [hval]
    exact key
  · have hdec1 : ltB (val (Real.pi / 4))
        (val |Complex.arg ⟨-5, -1⟩ - Complex.arg ⟨-5, 1⟩|) = true := by
      simp only [ltB_val_val, decide_eq_true_eq]
      exact hdelta
    norm_num [extract_features_eq, featureListOf, featVal, List.find?, velCol,
      seriesDiff, npDiff, dirCol, dirChangeCount, atan2, PFloat.div,
      List.countP_cons, hdec1]
    have hA2 : (Real.pi / 4 < |Complex.arg ⟨-5, -1⟩ - Complex.arg ⟨-5, 1⟩|) = True :=
      eq_true hdelta
    simp [hA2]

end

end ReRe
